import Mathlib

/-!
Verification development for the msgraph-calendar-cleaner repository.

The file embeds the event-purge pipeline of `msgraph_cleaner.py`,
`cleaner.py` and `google_cleaner.py` as Lean definitions and proves the
frozen claims about it:

* paginated event enumeration (`CalendarCleaner.fetch_events`,
  `msgraph_cleaner.py` lines 68-91, and the identical loop in
  `cleaner.py` lines 125-146);
* the bounded-concurrency deletion phase (`CalendarCleaner.delete_events`,
  `msgraph_cleaner.py` lines 93-107; `cleaner.py` lines 150-165);
* outcome classification and report aggregation;
* time-window resolution and serialization (`msgraph_cleaner.py`
  lines 135-145);
* the `--clean` branch of both provider mains.
-/

/-! ## Enumeration: pages and the fetch loop

`fetch_events` (msgraph_cleaner.py lines 68-91) repeatedly issues GET
requests while a next link is present.  Each provider response is modelled
as a `Page`: its HTTP status, the optional `value` key of the JSON body
(the list of event ids on that page), whether the body carries an
`@odata.nextLink` continuation cursor, and the raw body text. -/

structure Page where
  status : Nat
  value? : Option (List String)
  hasNext : Bool
  body : String
deriving Repr, DecidableEq

/-- Outcome of the enumeration loop.  `batch` is the normal return of the
accumulated event list; `exit1` is the `sys.exit(1)` taken in the
`requests.exceptions.HTTPError` handler (msgraph_cleaner.py lines 85-88),
which carries the status code and body that were printed; `keyError` is the
uncaught `KeyError` raised by `data['value']` when a success response lacks
the key (line 82). -/
inductive FetchResult where
  | batch (events : List String)
  | exit1 (status : Nat) (body : String)
  | keyError
deriving Repr, DecidableEq

/-- `requests.Response.raise_for_status` raises `HTTPError` exactly for
client errors (4xx) and server errors (5xx). -/
def raisesForStatus (s : Nat) : Bool := 400 ≤ s && s < 600

/-- The hard cap literal `9500` from the loop guard
`if len(events) > 9500: break` (msgraph_cleaner.py line 74). -/
def fetchCap : Nat := 9500

/-- The events carried by a page (the JSON `value` list, `[]` if absent). -/
def pageEvents (p : Page) : List String := p.value?.getD []

/-- The body of the `while next_link:` loop of
`CalendarCleaner.fetch_events` (msgraph_cleaner.py lines 73-88):
stop when the accumulated count exceeds the cap, otherwise fetch the next
page; a 4xx/5xx response is caught and turns into `sys.exit(1)`; otherwise
`data['value']` is appended (raising `KeyError` when missing) and the loop
continues while `data.get('@odata.nextLink')` is present.  The list
argument is the sequence of pages the provider serves for the successive
links. -/
def fetchLoop (acc : List String) : List Page → FetchResult
  | [] => .batch acc
  | p :: rest =>
    if fetchCap < acc.length then .batch acc
    else if raisesForStatus p.status then .exit1 p.status p.body
    else
      match p.value? with
      | none => .keyError
      | some evs => if p.hasNext then fetchLoop (acc ++ evs) rest else .batch (acc ++ evs)

/-- `CalendarCleaner.fetch_events`, starting from the empty accumulator and
the initial calendarview link (which is always present). -/
def fetch_events (pages : List Page) : FetchResult := fetchLoop [] pages

/-- Size of the returned batch (`0` when the run did not return one). -/
def batchSize : FetchResult → Nat
  | .batch evs => evs.length
  | _ => 0

/-- The event list handed to the deletion phase by `main`
(msgraph_cleaner.py lines 151-152): present only when enumeration returned
normally. -/
def eventsForDeletion : FetchResult → Option (List String)
  | .batch evs => some evs
  | _ => none

/-- Process exit code contributed by enumeration: `1` for the
`sys.exit(1)` in the error handler and for an uncaught exception, `0` when
the run continues to deletion (per-event deletion failures never change
the exit code). -/
def runExitCode : FetchResult → Nat
  | .batch _ => 0
  | .exit1 _ _ => 1
  | .keyError => 1

/-- The continuation cursors of a page sequence link each page to the next
one: every page except the last carries `@odata.nextLink`, the last does
not. -/
def chainedPages : List Page → Bool
  | [] => true
  | [p] => !p.hasNext
  | p :: q :: rest => p.hasNext && chainedPages (q :: rest)

/-- The accumulated count stays within the cap at every loop head, so no
fetch is skipped by the cap guard: starting from `n` accumulated events,
before each page fetch the count is at most `fetchCap`. -/
def capRespecting (n : Nat) : List Page → Bool
  | [] => true
  | p :: rest => decide (n ≤ fetchCap) && capRespecting (n + (pageEvents p).length) rest

/-- A concrete page sequence: nineteen full pages of 500 events followed by
one final page with a single event, all successful and chained by
continuation cursors.  Total: 9501 events. -/
def capWitnessPages : List Page :=
  List.replicate 19 ⟨200, some (List.replicate 500 "e"), true, ""⟩
    ++ [⟨200, some ["e"], false, ""⟩]

/-! ## Deletion phase

`CalendarCleaner.delete_event` (msgraph_cleaner.py lines 93-101) builds the
delete URL from the event id and issues exactly one DELETE request for it;
`delete_events` (lines 103-107) creates one such task per enumerated event
and gathers them.  The standalone `cleaner.py` `main` (lines 150-165) runs
the same async fan-out and then additionally loops over the same events a
second time with synchronous `requests.delete` calls. -/

def deleteUrl (event_id : String) : String :=
  "https://graph.microsoft.com/v1.0/me/events/" ++ event_id

/-- The DELETE requests issued by `CalendarCleaner.delete_events`
(msgraph_cleaner.py lines 103-107): one task per event, each task issuing a
single request with no retry. -/
def delete_events_requests (events : List String) : List String :=
  events.map deleteUrl

/-- The DELETE requests issued by the deletion phase of `cleaner.py main`
(lines 150-165): the async `gather` over `delete_event` tasks (line 154-155)
issues one request per event, and the subsequent synchronous loop
(lines 156-165) issues one more request per event. -/
def cleaner_main_delete_requests (events : List String) : List String :=
  events.map deleteUrl ++ events.map deleteUrl

/-! ## Bounded concurrency (the admission gate)

`delete_events` creates `asyncio.Semaphore(3)` (msgraph_cleaner.py line
104; google_cleaner.py line 77; cleaner.py line 152) and every
`delete_event` body runs inside `async with semaphore:`: the slot is
acquired before `session.delete` is issued and released only after the
response has been handled and the trailing sleep finished.  The executor is
modelled as a transition system over task counts; a deletion is in flight
exactly while its task holds a slot. -/

def semaphoreLimit : Nat := 3

/-- Counts of deletion tasks: not yet admitted, holding a slot with the
DELETE outstanding, and completed (slot released). -/
structure PurgeState where
  pending : Nat
  inflight : Nat
  completed : Nat
deriving Repr, DecidableEq

/-- One scheduler step of the semaphore-bounded fan-out: a pending task may
acquire a slot only while fewer than `semaphoreLimit` tasks hold one, and a
task holding a slot releases it after its response (success or failure) is
observed. -/
inductive PurgeStep : PurgeState → PurgeState → Prop
  | acquire (s : PurgeState) (hp : 0 < s.pending) (hs : s.inflight < semaphoreLimit) :
      PurgeStep s ⟨s.pending - 1, s.inflight + 1, s.completed⟩
  | release (s : PurgeState) (hi : 0 < s.inflight) :
      PurgeStep s ⟨s.pending, s.inflight - 1, s.completed + 1⟩

/-- Initial state for a batch of `n` enumerated events: all tasks pending. -/
def initState (n : Nat) : PurgeState := ⟨n, 0, 0⟩

/-- States the executor can reach during a run over a batch of `n` events. -/
inductive PurgeReachable (n : Nat) : PurgeState → Prop
  | init : PurgeReachable n (initState n)
  | step {s t : PurgeState} : PurgeReachable n s → PurgeStep s t → PurgeReachable n t

/-! ## Outcome classification and the purge report

`delete_event` classifies a response by `if response.status == 204`
(msgraph_cleaner.py line 97): no-content means deleted, anything else is a
failure whose status and body are reported.  The code only prints one line
per outcome and keeps no counters; the `PurgeReport` aggregate is
modelled from the spec: section 4.4 requires accumulating the outcomes
into `deletedCount`, `failedCount` and the failure list. -/

/-- The response observed for one event's delete call. -/
structure DeleteResponse where
  eventId : String
  status : Nat
  body : String
deriving Repr, DecidableEq

/-- Per-event outcome, classified exactly as msgraph_cleaner.py line 97
does: status 204 (no content) is a deletion, every other status is a
failure carrying the status and body. -/
inductive PurgeOutcome where
  | deleted
  | failed (status : Nat) (body : String)
deriving Repr, DecidableEq

def classifyOutcome (r : DeleteResponse) : PurgeOutcome :=
  if r.status = 204 then .deleted else .failed r.status r.body

/-- Modelled from the spec: `PurgeReport` (spec sections 3 and 4.4) is the
aggregate of the per-event outcomes; the source only prints one line per
outcome (msgraph_cleaner.py lines 98-100) and builds no such record. -/
structure PurgeReport where
  deletedCount : Nat
  failedCount : Nat
  failures : List (String × Nat × String)
deriving Repr, DecidableEq

def emptyReport : PurgeReport := ⟨0, 0, []⟩

/-- Record one observed response into the report, following the
classification of msgraph_cleaner.py line 97. -/
def recordOutcome (rep : PurgeReport) (r : DeleteResponse) : PurgeReport :=
  match classifyOutcome r with
  | .deleted => { rep with deletedCount := rep.deletedCount + 1 }
  | .failed st b =>
      { rep with
          failedCount := rep.failedCount + 1
          failures := rep.failures ++ [(r.eventId, st, b)] }

/-- The purge over a batch: every event receives exactly one delete call
whose response is recorded. -/
def runPurge (batch : List DeleteResponse) : PurgeReport :=
  batch.foldl recordOutcome emptyReport

/-! ## Time-window resolution and serialization

`main` (msgraph_cleaner.py lines 135-145; identically cleaner.py lines
67-79 and google_cleaner.py lines 121-131) parses `--start` and `--end`
with `datetime.strptime(s, YYYY-MM-DD HH:MM)`, localizes to the chosen
timezone, converts to UTC with `astimezone(pytz.utc)`, and serializes with
`isoformat().replace(PLUS0000, Z)`. -/

/-- A timezone-aware UTC datetime, as produced by
`astimezone(pytz.utc)`. -/
structure UTCDateTime where
  year : Nat
  month : Nat
  day : Nat
  hour : Nat
  minute : Nat
  second : Nat
deriving Repr, DecidableEq

/-- ASCII digit character for `d % 10`. -/
def digitChar (d : Nat) : Char := Char.ofNat (48 + d % 10)

/-- Two-digit zero-padded decimal, as `datetime.isoformat` prints month,
day, hour, minute and second fields. -/
def pad2 (n : Nat) : List Char := [digitChar (n / 10), digitChar n]

/-- Four-digit zero-padded decimal, as `datetime.isoformat` prints the
year. -/
def pad4 (n : Nat) : List Char :=
  [digitChar (n / 1000), digitChar (n / 100), digitChar (n / 10), digitChar n]

/-- The characters of the literal `+00:00` offset suffix. -/
def plusZeroZero : List Char := ['+', '0', '0', ':', '0', '0']

/-- The date-time part of `isoformat()` before the offset:
`YYYY-MM-DDTHH:MM:SS`. -/
def isoBase (dt : UTCDateTime) : List Char :=
  pad4 dt.year ++ '-' :: pad2 dt.month ++ '-' :: pad2 dt.day
    ++ 'T' :: pad2 dt.hour ++ ':' :: pad2 dt.minute ++ ':' :: pad2 dt.second

/-- `datetime.isoformat()` on an aware UTC datetime with zero microseconds:
the date-time part followed by the `+00:00` offset. -/
def isoformatUTC (dt : UTCDateTime) : List Char := isoBase dt ++ plusZeroZero

/-- Python `str.replace` for the call sites
`isoformat().replace(PLUS0000, Z)` (msgraph_cleaner.py lines 144-145):
left-to-right, non-overlapping replacement of every occurrence of the
six-character pattern `+00:00` by `Z`, specialized to the literal
arguments the source passes. -/
def replacePlusOffsetWithZ (s : List Char) : List Char :=
  match s with
  | [] => []
  | c :: rest =>
    if c = '+' ∧ rest.take 5 = ['0', '0', ':', '0', '0'] then
      'Z' :: replacePlusOffsetWithZ (rest.drop 5)
    else
      c :: replacePlusOffsetWithZ rest
termination_by s.length
decreasing_by
  · simp only [List.length_drop, List.length_cons]; omega
  · simp only [List.length_cons]; omega

/-- One serialized window bound, e.g. `start_time_iso`
(msgraph_cleaner.py line 144). -/
def serializeBound (dt : UTCDateTime) : List Char :=
  replacePlusOffsetWithZ (isoformatUTC dt)

/-- Whether `pat` is an initial segment of `s`. -/
def leadsIn : List Char → List Char → Bool
  | [], _ => true
  | _ :: _, [] => false
  | a :: as, b :: bs => a == b && leadsIn as bs

/-- Whether `pat` occurs as a contiguous substring of `s`. -/
def occursIn (pat : List Char) : List Char → Bool
  | [] => pat.isEmpty
  | c :: tail => leadsIn pat (c :: tail) || occursIn pat tail

/-! ### Parsing the CLI date-time strings

`datetime.strptime(s, YYYY-MM-DD HH:MM)` is library code; it is modelled
for canonical zero-padded inputs, with the field-range validation strptime
performs (it rejects month 13, day 40, hour 99 and the like). -/

/-- Naive local datetime parsed from a CLI argument. -/
structure NaiveDateTime where
  year : Nat
  month : Nat
  day : Nat
  hour : Nat
  minute : Nat
deriving Repr, DecidableEq

def digitVal (c : Char) : Nat := c.toNat - 48

def parse2 : List Char → Option (Nat × List Char)
  | a :: b :: rest =>
      if a.isDigit && b.isDigit then some (10 * digitVal a + digitVal b, rest)
      else none
  | _ => none

def parse4 : List Char → Option (Nat × List Char)
  | a :: b :: c :: d :: rest =>
      if a.isDigit && b.isDigit && c.isDigit && d.isDigit then
        some (1000 * digitVal a + 100 * digitVal b + 10 * digitVal c + digitVal d, rest)
      else none
  | _ => none

def expectChar (c : Char) : List Char → Option (List Char)
  | b :: rest => if b = c then some rest else none
  | [] => none

/-- Days in a month, with the Gregorian leap rule, as strptime validates
the day field. -/
def daysInMonth (y m : Nat) : Nat :=
  if m = 2 then
    if (y % 4 = 0 && y % 100 ≠ 0) || y % 400 = 0 then 29 else 28
  else if m = 4 || m = 6 || m = 9 || m = 11 then 30
  else 31

/-- Modelled from library code: `datetime.strptime` for the format
`YYYY-MM-DD HH:MM` on zero-padded input, returning `none` exactly where
strptime raises `ValueError` (shape mismatch or out-of-range field). -/
def strptimeYmdHM (s : String) : Option NaiveDateTime := do
  let cs := s.data
  let (y, cs) ← parse4 cs
  let cs ← expectChar '-' cs
  let (mo, cs) ← parse2 cs
  let cs ← expectChar '-' cs
  let (d, cs) ← parse2 cs
  let cs ← expectChar ' ' cs
  let (h, cs) ← parse2 cs
  let cs ← expectChar ':' cs
  let (mi, cs) ← parse2 cs
  if cs = [] ∧ 1 ≤ mo ∧ mo ≤ 12 ∧ 1 ≤ d ∧ d ≤ daysInMonth y mo ∧ h ≤ 23 ∧ mi ≤ 59 then
    some ⟨y, mo, d, h, mi⟩
  else none

/-- `timezone.localize(naive).astimezone(pytz.utc)` for the UTC timezone:
the identity embedding of the parsed fields (pytz.utc has offset zero and
no DST). -/
def localizeUTC (n : NaiveDateTime) : UTCDateTime :=
  ⟨n.year, n.month, n.day, n.hour, n.minute, 0⟩

/-- The time window a run uses: the two UTC bounds of the query interval. -/
structure TimeWindow where
  startTime : UTCDateTime
  endTime : UTCDateTime
deriving Repr, DecidableEq

/-- The window resolution of `main` (msgraph_cleaner.py lines 135-142)
under the UTC timezone: parse both CLI strings, convert each to UTC.  Note
the source applies no ordering check between the two bounds. -/
def resolveWindowUTC (startStr endStr : String) : Option TimeWindow := do
  let s ← strptimeYmdHM startStr
  let e ← strptimeYmdHM endStr
  some ⟨localizeUTC s, localizeUTC e⟩

/-- Chronological key of a UTC datetime (strictly monotone in the
lexicographic field order for in-range calendar datetimes). -/
def timeKey (dt : UTCDateTime) : Nat :=
  ((((dt.year * 13 + dt.month) * 32 + dt.day) * 24 + dt.hour) * 60 + dt.minute) * 60
    + dt.second

/-! ## The clean branch of the provider mains

msgraph_cleaner.py line 125 runs `CalendarCleaner.clean_cache()` on the
class itself, but `clean_cache` (line 46) is an instance method taking
`self`; google_cleaner.py line 109 writes `sys.exit` without parentheses,
which evaluates the function object and discards it instead of exiting. -/

/-- A Python callable together with its number of required positional
parameters. -/
structure PyCallable where
  requiredPositional : Nat
deriving Repr, DecidableEq

/-- `def clean_cache(self)` (msgraph_cleaner.py line 46): an instance
method accessed on the class is a plain function requiring the `self`
argument. -/
def clean_cache_unbound : PyCallable := ⟨1⟩

/-- Python call semantics for positional arguments: a call with the wrong
number of positional arguments raises `TypeError`. -/
def callPositional (f : PyCallable) (argCount : Nat) : Except String Unit :=
  if argCount = f.requiredPositional then .ok ()
  else .error "TypeError: missing required positional argument"

/-- The `--clean` branch of msgraph_cleaner.py `main` (lines 124-127):
`CalendarCleaner.clean_cache()` supplies zero arguments to the unbound
one-parameter method, so the branch raises before the cache file is
touched and before `sys.exit(0)` is reached. -/
def msgraph_clean_branch : Except String Unit := callPositional clean_cache_unbound 0

/-- Observable outcome of one google_cleaner.py `main` run. -/
structure GoogleRun where
  tokenRemoved : Bool
  exitCode : Nat
  purgeAttempted : Bool
deriving Repr, DecidableEq

/-- Control flow of google_cleaner.py `main` (lines 104-135) as a function
of which flags were supplied.  With `--clean`, `clean_token_cache()` runs
(removing the token file), after which the bare `sys.exit` on line 109 is
evaluated but not called, so execution falls through to the
`--start`/`--end` presence check (exit code 1 when either is missing) and,
when both are present, to the full enumeration and purge. -/
def google_main (clean hasStart hasEnd : Bool) : GoogleRun :=
  let tokenRemoved := clean
  if !hasStart || !hasEnd then ⟨tokenRemoved, 1, false⟩
  else ⟨tokenRemoved, 0, true⟩

/-! ### Helper lemmas about the fetch loop -/

lemma fetchLoop_concat (pages : List Page) : ∀ acc : List String,
    (∀ p ∈ pages, raisesForStatus p.status = false) →
    (∀ p ∈ pages, p.value?.isSome) →
    chainedPages pages = true →
    capRespecting acc.length pages = true →
    fetchLoop acc pages = .batch (acc ++ pages.flatMap pageEvents) := by
  induction pages with
  | nil => intro acc _ _ _ _; simp [fetchLoop]
  | cons p rest ih =>
    intro acc hok hval hchain hcap
    simp only [capRespecting, Bool.and_eq_true, decide_eq_true_eq] at hcap
    obtain ⟨hle, hcap'⟩ := hcap
    have hpok : raisesForStatus p.status = false := hok p (by simp)
    have hpval : p.value?.isSome := hval p (by simp)
    obtain ⟨evs, hevs⟩ := Option.isSome_iff_exists.mp hpval
    have hnotlt : ¬ fetchCap < acc.length := by omega
    cases rest with
    | nil =>
      have hlast : p.hasNext = false := by
        simpa [chainedPages] using hchain
      simp [fetchLoop, hnotlt, hpok, hevs, hlast, pageEvents]
    | cons q rs =>
      have hnext : p.hasNext = true := by
        simp only [chainedPages, Bool.and_eq_true] at hchain
        exact hchain.1
      have hchain' : chainedPages (q :: rs) = true := by
        simp only [chainedPages, Bool.and_eq_true] at hchain
        exact hchain.2
      have hcap2 : capRespecting (acc ++ evs).length (q :: rs) = true := by
        have hlen : (acc ++ evs).length = acc.length + (pageEvents p).length := by
          simp [pageEvents, hevs]
        rw [hlen]
        exact hcap'
      have hrec := ih (acc ++ evs) (fun r hr => hok r (by simp [hr]))
        (fun r hr => hval r (by simp [hr])) hchain' hcap2
      have hstep : fetchLoop acc (p :: q :: rs) = fetchLoop (acc ++ evs) (q :: rs) := by
        simp [fetchLoop, hnotlt, hpok, hevs, hnext]
      rw [hstep, hrec]
      simp [pageEvents, hevs]

lemma fetchLoop_error (p : Page) (rest : List Page) (ps : List Page) :
    ∀ acc : List String,
    (∀ q ∈ ps, raisesForStatus q.status = false) →
    (∀ q ∈ ps, q.value?.isSome) →
    (∀ q ∈ ps, q.hasNext = true) →
    capRespecting acc.length (ps ++ [p]) = true →
    raisesForStatus p.status = true →
    fetchLoop acc (ps ++ p :: rest) = .exit1 p.status p.body := by
  induction ps with
  | nil =>
    intro acc _ _ _ hcap hfail
    simp only [capRespecting, Bool.and_eq_true, decide_eq_true_eq] at hcap
    have hnotlt : ¬ fetchCap < acc.length := by omega
    simp [fetchLoop, hnotlt, hfail]
  | cons q qs ih =>
    intro acc hok hval hnext hcap hfail
    simp only [capRespecting, Bool.and_eq_true, decide_eq_true_eq] at hcap
    obtain ⟨hle, hcap'⟩ := hcap
    have hqok : raisesForStatus q.status = false := hok q (by simp)
    have hqval : q.value?.isSome := hval q (by simp)
    obtain ⟨evs, hevs⟩ := Option.isSome_iff_exists.mp hqval
    have hqnext : q.hasNext = true := hnext q (by simp)
    have hnotlt : ¬ fetchCap < acc.length := by omega
    have hcap2 : capRespecting (acc ++ evs).length (qs ++ [p]) = true := by
      have hlen : (acc ++ evs).length = acc.length + (pageEvents q).length := by
        simp [pageEvents, hevs]
      rw [hlen]
      exact hcap'
    have hrec := ih (acc ++ evs) (fun r hr => hok r (by simp [hr]))
      (fun r hr => hval r (by simp [hr])) (fun r hr => hnext r (by simp [hr]))
      hcap2 hfail
    have hstep : fetchLoop acc ((q :: qs) ++ p :: rest) = fetchLoop (acc ++ evs) (qs ++ p :: rest) := by
      simp [fetchLoop, hnotlt, hqok, hevs, hqnext]
    rw [hstep, hrec]

lemma fetchLoop_size_bound (pages : List Page) (bound : Nat) :
    ∀ acc : List String,
    (∀ p ∈ pages, (pageEvents p).length ≤ bound) →
    acc.length ≤ fetchCap + bound →
    batchSize (fetchLoop acc pages) ≤ fetchCap + bound := by
  induction pages with
  | nil => intro acc _ hacc; simpa [fetchLoop, batchSize] using hacc
  | cons p rest ih =>
    intro acc hb hacc
    by_cases hlt : fetchCap < acc.length
    · simp only [fetchLoop, hlt, if_true, batchSize]
      exact hacc
    · have hple : (pageEvents p).length ≤ bound := hb p (by simp)
      by_cases hfail : raisesForStatus p.status
      · simp [fetchLoop, hlt, hfail, batchSize]
      · cases hevs : p.value? with
        | none => simp [fetchLoop, hlt, hfail, hevs, batchSize]
        | some evs =>
          have hevlen : evs.length ≤ bound := by
            simpa [pageEvents, hevs] using hple
          have hacc2 : (acc ++ evs).length ≤ fetchCap + bound := by
            simp only [List.length_append]; omega
          by_cases hnx : p.hasNext = true
          · have hrec := ih (acc ++ evs) (fun r hr => hb r (by simp [hr])) hacc2
            have hstep : fetchLoop acc (p :: rest) = fetchLoop (acc ++ evs) rest := by
              simp [fetchLoop, hlt, hfail, hevs, hnx]
            rw [hstep]
            exact hrec
          · have hnx' : p.hasNext = false := by simpa using hnx
            have hstep : fetchLoop acc (p :: rest) = .batch (acc ++ evs) := by
              simp [fetchLoop, hlt, hfail, hevs, hnx']
            rw [hstep]
            simpa [batchSize] using hacc2

lemma fetchLoop_no_keyError (pages : List Page) :
    ∀ acc : List String, (∀ p ∈ pages, p.value?.isSome) →
    fetchLoop acc pages ≠ .keyError := by
  induction pages with
  | nil => intro acc _; simp [fetchLoop]
  | cons p rest ih =>
    intro acc hval
    obtain ⟨evs, hevs⟩ := Option.isSome_iff_exists.mp (hval p (by simp))
    by_cases hlt : fetchCap < acc.length
    · simp [fetchLoop, hlt]
    · by_cases hfail : raisesForStatus p.status
      · simp [fetchLoop, hlt, hfail]
      · by_cases hnx : p.hasNext = true
        · simp only [fetchLoop, hlt, if_false, hfail, hevs, hnx, if_true]
          exact ih (acc ++ evs) (fun r hr => hval r (by simp [hr]))
        · have hnx' : p.hasNext = false := by simpa using hnx
          simp [fetchLoop, hlt, hfail, hevs, hnx']

/-! ### Helper lemmas about serialization -/

lemma digitChar_ne_plus (d : Nat) : digitChar d ≠ '+' := by
  have hk : d % 10 < 10 := Nat.mod_lt _ (by norm_num)
  unfold digitChar
  set k := d % 10 with hk2
  interval_cases k <;> decide

lemma plus_not_mem_isoBase (dt : UTCDateTime) : '+' ∉ isoBase dt := by
  have hall : ∀ c ∈ isoBase dt, c ≠ '+' := by
    simp only [isoBase, pad4, pad2, List.forall_mem_append, List.forall_mem_cons,
      List.forall_mem_nil, and_true]
    repeat' apply And.intro
    all_goals first | exact digitChar_ne_plus _ | decide
  intro hmem
  exact hall '+' hmem rfl

lemma replace_append_of_no_plus (s : List Char) (h : '+' ∉ s) :
    replacePlusOffsetWithZ (s ++ plusZeroZero) = s ++ ['Z'] := by
  induction s with
  | nil =>
    simp [replacePlusOffsetWithZ, plusZeroZero]
  | cons c s' ih =>
    have hc : c ≠ '+' := fun hc => h (by simp [hc])
    have h' : '+' ∉ s' := fun hm => h (List.mem_cons_of_mem _ hm)
    rw [List.cons_append, replacePlusOffsetWithZ, if_neg (fun hand => hc hand.1), ih h',
      List.cons_append]

lemma getLast?_append_singleton (l : List Char) (a : Char) :
    (l ++ [a]).getLast? = some a := by
  induction l with
  | nil => rfl
  | cons b t ih =>
    cases t with
    | nil => rfl
    | cons c t' => simpa [List.getLast?_cons_cons] using ih

lemma mem_of_leadsIn (pat : List Char) : ∀ s : List Char,
    leadsIn pat s = true → ∀ x ∈ pat, x ∈ s := by
  induction pat with
  | nil => intro s _ x hx; simp at hx
  | cons a as ih =>
    intro s hl x hx
    cases s with
    | nil => simp [leadsIn] at hl
    | cons b bs =>
      simp only [leadsIn, Bool.and_eq_true, beq_iff_eq] at hl
      rcases List.mem_cons.mp hx with h | h
      · simp [h, hl.1]
      · exact List.mem_cons_of_mem _ (ih bs hl.2 x h)

lemma occursIn_eq_false (pat : List Char) (c : Char) (hc : c ∈ pat) :
    ∀ s : List Char, c ∉ s → occursIn pat s = false := by
  intro s
  induction s with
  | nil =>
    intro _
    cases pat with
    | nil => simp at hc
    | cons a as => simp [occursIn]
  | cons b tail ih =>
    intro hs
    have h1 : leadsIn pat (b :: tail) = false := by
      by_contra hne
      have htrue : leadsIn pat (b :: tail) = true := by
        simpa using hne
      exact hs (mem_of_leadsIn pat _ htrue c hc)
    have h2 : occursIn pat tail = false := ih (fun hm => hs (List.mem_cons_of_mem _ hm))
    simp [occursIn, h1, h2]

lemma serializeBound_eq (dt : UTCDateTime) : serializeBound dt = isoBase dt ++ ['Z'] := by
  unfold serializeBound isoformatUTC
  exact replace_append_of_no_plus (isoBase dt) (plus_not_mem_isoBase dt)

lemma serializeBound_spec (dt : UTCDateTime) :
    (serializeBound dt).getLast? = some 'Z' ∧
    occursIn plusZeroZero (serializeBound dt) = false := by
  rw [serializeBound_eq]
  refine ⟨getLast?_append_singleton _ _, ?_⟩
  apply occursIn_eq_false _ '+' (by decide)
  intro hmem
  rcases List.mem_append.mp hmem with h | h
  · exact plus_not_mem_isoBase dt h
  · simp only [List.mem_singleton] at h
    exact absurd h (by decide)

/-! ### Helper lemma about the purge report -/

lemma foldl_record_all204 (batch : List DeleteResponse) :
    ∀ rep : PurgeReport, (∀ r ∈ batch, r.status = 204) →
    batch.foldl recordOutcome rep =
      ⟨rep.deletedCount + batch.length, rep.failedCount, rep.failures⟩ := by
  induction batch with
  | nil => intro rep _; simp
  | cons r rs ih =>
    intro rep hall
    have hr : r.status = 204 := hall r (by simp)
    have hrec : recordOutcome rep r = { rep with deletedCount := rep.deletedCount + 1 } := by
      simp [recordOutcome, classifyOutcome, hr]
    rw [List.foldl_cons, hrec, ih _ (fun x hx => hall x (by simp [hx]))]
    simp only [List.length_cons, PurgeReport.mk.injEq, and_true, true_and]
    omega

/-! ## Claim theorems -/

/-- C1: the claim that no event id is ever sent to the delete endpoint more
than once fails on cleaner.py: for the one-event batch e1, the standalone
main issues two DELETE requests for e1 (once through the async gather over
delete_event tasks, then once more in the trailing synchronous loop), while
the class-based CalendarCleaner.delete_events issues exactly one. -/
theorem cleaner_main_deletes_twice :
    (cleaner_main_delete_requests ["e1"]).count (deleteUrl "e1") = 2 ∧
    (delete_events_requests ["e1"]).count (deleteUrl "e1") = 1 := by
  exact ⟨rfl, rfl⟩

/-- C2: in every state the bounded purge executor can reach, for any batch
size, at most 3 deletion requests are outstanding concurrently: a slot of
the counting gate is acquired before each delete is issued and released
only after its response (success or failure) is observed. -/
theorem purge_inflight_at_most_three (n : Nat) (s : PurgeState)
    (h : PurgeReachable n s) : s.inflight ≤ semaphoreLimit := by
  induction h with
  | init => exact Nat.zero_le _
  | step hreach hstep ih =>
    cases hstep with
    | acquire hp hs => exact hs
    | release hi => exact le_trans (Nat.sub_le _ _) ih

theorem purge_inflight_at_most_three_w :
    (⟨997, 3, 0⟩ : PurgeState).inflight ≤ semaphoreLimit :=
  purge_inflight_at_most_three 1000 ⟨997, 3, 0⟩
    (PurgeReachable.step
      (PurgeReachable.step
        (PurgeReachable.step PurgeReachable.init
          (PurgeStep.acquire ⟨1000, 0, 0⟩ (by decide) (by decide)))
        (PurgeStep.acquire ⟨999, 1, 0⟩ (by decide) (by decide)))
      (PurgeStep.acquire ⟨998, 2, 0⟩ (by decide) (by decide)))

/-- C3: for any batch in which every delete call returns the no-content
status 204, the purge report counts every event as deleted: deletedCount
equals the batch size, failedCount is 0 and the failure list is empty. -/
theorem purge_report_all_no_content (batch : List DeleteResponse)
    (h : ∀ r ∈ batch, r.status = 204) :
    (runPurge batch).deletedCount = batch.length ∧
    (runPurge batch).failedCount = 0 ∧
    (runPurge batch).failures = [] := by
  unfold runPurge
  rw [foldl_record_all204 batch emptyReport h]
  exact ⟨by simp [emptyReport], rfl, rfl⟩

theorem purge_report_all_no_content_w :
    (runPurge [⟨"e1", 204, ""⟩, ⟨"e2", 204, ""⟩]).deletedCount = 2 ∧
    (runPurge [⟨"e1", 204, ""⟩, ⟨"e2", 204, ""⟩]).failedCount = 0 ∧
    (runPurge [⟨"e1", 204, ""⟩, ⟨"e2", 204, ""⟩]).failures = [] :=
  purge_report_all_no_content [⟨"e1", 204, ""⟩, ⟨"e2", 204, ""⟩] (by decide)

/-- C4 counterexample: with nineteen full pages of 500 events and a
twentieth page still linked by a continuation cursor, the enumerator
appends the twentieth page as well (the guard only fires once the count
strictly exceeds 9500), so the returned batch has 9501 events — more than
9500, refuting the claim that the batch never exceeds 9500. -/
lemma length_flatMap_replicate_page (P : Page) (n : Nat) :
    ((List.replicate n P).flatMap pageEvents).length = n * (pageEvents P).length := by
  induction n with
  | zero => simp
  | succ k ih =>
    simp only [List.replicate_succ, List.flatMap_cons, List.length_append, ih]
    ring

set_option maxRecDepth 40000 in
theorem fetch_events_can_exceed_9500 :
    9500 < batchSize (fetch_events capWitnessPages) := by
  have hok : ∀ p ∈ capWitnessPages, raisesForStatus p.status = false := by
    intro p hp
    rcases List.mem_append.mp hp with h | h
    · rw [List.eq_of_mem_replicate h]; rfl
    · rw [List.mem_singleton.mp h]; rfl
  have hval : ∀ p ∈ capWitnessPages, p.value?.isSome := by
    intro p hp
    rcases List.mem_append.mp hp with h | h
    · rw [List.eq_of_mem_replicate h]; rfl
    · rw [List.mem_singleton.mp h]; rfl
  have h := fetchLoop_concat capWitnessPages [] hok hval (by decide) (by decide)
  unfold fetch_events
  rw [h]
  simp only [batchSize, List.nil_append, capWitnessPages, List.flatMap_append,
    List.length_append, length_flatMap_replicate_page]
  norm_num [pageEvents]

/-- C4 amended: the enumerator stops fetching further pages only once the
accumulated count strictly exceeds 9500; with pages of at most 500 events
(the requested page size), the returned batch never contains more than
10000 events. -/
theorem fetch_events_size_at_most_10000 (pages : List Page)
    (hb : ∀ p ∈ pages, (pageEvents p).length ≤ 500) :
    batchSize (fetch_events pages) ≤ 10000 := by
  have h := fetchLoop_size_bound pages 500 [] hb (by simp)
  have hcap : fetchCap + 500 = 10000 := rfl
  rw [fetch_events]
  omega

theorem fetch_events_size_at_most_10000_w :
    batchSize (fetch_events [⟨200, some ["a"], false, ""⟩]) ≤ 10000 :=
  fetch_events_size_at_most_10000 [⟨200, some ["a"], false, ""⟩] (by decide)

/-- C5: if a page fetch returns a status in the 4xx/5xx range (the statuses
for which raise_for_status raises), enumeration aborts the whole run:
the result is the error exit carrying that status and body, the process
exit code is 1, and no partial event list is handed to the deletion
phase. -/
theorem fetch_events_aborts_on_http_error (ps : List Page) (p : Page) (rest : List Page)
    (hok : ∀ q ∈ ps, raisesForStatus q.status = false)
    (hval : ∀ q ∈ ps, q.value?.isSome)
    (hnext : ∀ q ∈ ps, q.hasNext = true)
    (hcap : capRespecting 0 (ps ++ [p]) = true)
    (hfail : raisesForStatus p.status = true) :
    fetch_events (ps ++ p :: rest) = .exit1 p.status p.body ∧
    eventsForDeletion (fetch_events (ps ++ p :: rest)) = none ∧
    runExitCode (fetch_events (ps ++ p :: rest)) = 1 := by
  have h := fetchLoop_error p rest ps [] hok hval hnext (by simpa using hcap) hfail
  rw [fetch_events, h]
  exact ⟨rfl, rfl, rfl⟩

theorem fetch_events_aborts_on_http_error_w :
    fetch_events [⟨200, some ["a"], true, ""⟩, ⟨500, some [], false, "server error"⟩]
      = .exit1 500 "server error" ∧
    eventsForDeletion
      (fetch_events [⟨200, some ["a"], true, ""⟩, ⟨500, some [], false, "server error"⟩])
      = none ∧
    runExitCode
      (fetch_events [⟨200, some ["a"], true, ""⟩, ⟨500, some [], false, "server error"⟩])
      = 1 :=
  fetch_events_aborts_on_http_error [⟨200, some ["a"], true, ""⟩]
    ⟨500, some [], false, "server error"⟩ []
    (by decide) (by decide) (by decide) (by decide) (by decide)

/-- C6: when every page is served successfully with the value key present,
the continuation cursors chain the pages in provider order, and the
accumulated count stays within the cap at every fetch, the returned batch
is exactly the concatenation of the pages' event lists in page order — no
page skipped or reordered. -/
theorem fetch_events_concatenates_pages (pages : List Page)
    (hok : ∀ p ∈ pages, raisesForStatus p.status = false)
    (hval : ∀ p ∈ pages, p.value?.isSome)
    (hchain : chainedPages pages = true)
    (hcap : capRespecting 0 pages = true) :
    fetch_events pages = .batch (pages.flatMap pageEvents) := by
  have h := fetchLoop_concat pages [] hok hval hchain (by simpa using hcap)
  rw [fetch_events, h]
  simp

theorem fetch_events_concatenates_pages_w :
    fetch_events [⟨200, some ["a", "b"], true, ""⟩, ⟨200, some ["c"], false, ""⟩]
      = .batch ["a", "b", "c"] :=
  fetch_events_concatenates_pages
    [⟨200, some ["a", "b"], true, ""⟩, ⟨200, some ["c"], false, ""⟩]
    (by decide) (by decide) (by decide) (by decide)

/-- C7: refuted by the code — under --clean, msgraph_cleaner.py calls the
instance method clean_cache on the class with no instance, which raises
TypeError before the cache file is touched or sys.exit(0) is reached; and
google_cleaner.py never calls its bare sys.exit, so with only --clean it
exits 1 through the missing start and end check, while with --clean plus
the start and end flags it proceeds to a full purge. -/
theorem clean_flag_branch_behavior :
    msgraph_clean_branch = .error "TypeError: missing required positional argument" ∧
    (google_main true false false).exitCode = 1 ∧
    (google_main true false false).purgeAttempted = false ∧
    (google_main true true true).purgeAttempted = true :=
  ⟨rfl, rfl, rfl, rfl⟩

/-- C8: every window the resolver produces has serialized start and end
bounds that end in the literal character Z and never contain the +00:00
suffix. -/
theorem resolved_bounds_end_in_Z (s e : String) (w : TimeWindow)
    (_hw : resolveWindowUTC s e = some w) :
    ((serializeBound w.startTime).getLast? = some 'Z' ∧
      occursIn plusZeroZero (serializeBound w.startTime) = false) ∧
    ((serializeBound w.endTime).getLast? = some 'Z' ∧
      occursIn plusZeroZero (serializeBound w.endTime) = false) :=
  ⟨serializeBound_spec w.startTime, serializeBound_spec w.endTime⟩

theorem resolved_bounds_end_in_Z_w :
    ((serializeBound (⟨2023, 1, 1, 0, 0, 0⟩ : UTCDateTime)).getLast? = some 'Z' ∧
      occursIn plusZeroZero (serializeBound (⟨2023, 1, 1, 0, 0, 0⟩ : UTCDateTime)) = false) ∧
    ((serializeBound (⟨2023, 1, 2, 0, 0, 0⟩ : UTCDateTime)).getLast? = some 'Z' ∧
      occursIn plusZeroZero (serializeBound (⟨2023, 1, 2, 0, 0, 0⟩ : UTCDateTime)) = false) :=
  resolved_bounds_end_in_Z "2023-01-01 00:00" "2023-01-02 00:00"
    ⟨⟨2023, 1, 1, 0, 0, 0⟩, ⟨2023, 1, 2, 0, 0, 0⟩⟩ (by decide)

/-- C9 counterexample: the resolver succeeds on inverted inputs — the
start string one day after the end string — and yields a window whose UTC
start is strictly after its UTC end, refuting the claimed invariant that
every resolved window satisfies start ≤ end. -/
theorem resolver_accepts_inverted_window :
    resolveWindowUTC "2023-01-02 00:00" "2023-01-01 00:00"
      = some ⟨⟨2023, 1, 2, 0, 0, 0⟩, ⟨2023, 1, 1, 0, 0, 0⟩⟩ ∧
    timeKey (⟨2023, 1, 1, 0, 0, 0⟩ : UTCDateTime)
      < timeKey (⟨2023, 1, 2, 0, 0, 0⟩ : UTCDateTime) := by
  exact ⟨by decide, by decide⟩

/-- C9 amended: the resolver applies no ordering check — it succeeds on any
pair of valid inputs regardless of order, and the resolved window satisfies
start ≤ end exactly when the user-supplied start is not after the end
(stated for the UTC timezone, where localization is the identity). -/
theorem resolver_orders_iff_inputs_ordered (s e : String) (ns ne : NaiveDateTime)
    (hs : strptimeYmdHM s = some ns) (he : strptimeYmdHM e = some ne) :
    resolveWindowUTC s e = some ⟨localizeUTC ns, localizeUTC ne⟩ ∧
    (timeKey (localizeUTC ns) ≤ timeKey (localizeUTC ne) →
      ∀ w, resolveWindowUTC s e = some w → timeKey w.startTime ≤ timeKey w.endTime) := by
  have hres : resolveWindowUTC s e = some ⟨localizeUTC ns, localizeUTC ne⟩ := by
    simp [resolveWindowUTC, hs, he]
  refine ⟨hres, fun hord w hw => ?_⟩
  rw [hres] at hw
  injection hw with h
  subst h
  exact hord

theorem resolver_orders_iff_inputs_ordered_w :
    resolveWindowUTC "2023-01-01 00:00" "2023-01-02 00:00"
      = some ⟨localizeUTC ⟨2023, 1, 1, 0, 0⟩, localizeUTC ⟨2023, 1, 2, 0, 0⟩⟩ ∧
    (timeKey (localizeUTC ⟨2023, 1, 1, 0, 0⟩) ≤ timeKey (localizeUTC ⟨2023, 1, 2, 0, 0⟩) →
      ∀ w, resolveWindowUTC "2023-01-01 00:00" "2023-01-02 00:00" = some w →
        timeKey w.startTime ≤ timeKey w.endTime) :=
  resolver_orders_iff_inputs_ordered "2023-01-01 00:00" "2023-01-02 00:00"
    ⟨2023, 1, 1, 0, 0⟩ ⟨2023, 1, 2, 0, 0⟩ (by decide) (by decide)

/-- C10: the success path of fetch_events is total only under the
precondition that every success-status listing response carries the value
key: with the key always present the loop never raises KeyError, while a
200 response lacking it makes fetch_events raise an uncaught KeyError
instead of reporting an enumeration error or returning a batch. -/
theorem fetch_events_requires_value_key (pages : List Page)
    (hval : ∀ p ∈ pages, p.value?.isSome) :
    fetch_events pages ≠ .keyError ∧
    fetch_events [⟨200, none, false, ""⟩] = .keyError :=
  ⟨fetchLoop_no_keyError pages [] hval, rfl⟩

theorem fetch_events_requires_value_key_w :
    fetch_events [⟨200, some ["a"], false, ""⟩] ≠ .keyError ∧
    fetch_events [⟨200, none, false, ""⟩] = .keyError :=
  fetch_events_requires_value_key [⟨200, some ["a"], false, ""⟩] (by decide)
